import Mathlib

/-!
Verification development for the website_scraper repository.

The Python sources (src/selenium_scraper.py and src/universal_scraper.py) are
shallowly embedded below.  Pure string processing (the regular-expression
extraction loops and the revenue normalization of
SeleniumDNBScraper.extract_company_data_enhanced) is translated into
executable Lean functions; the Python re module is modelled by a small
backtracking matcher covering exactly the constructs the source patterns use
(case-insensitive literals, character classes, greedy + * ?, lazy .*?, a
non-capturing alternation of literals, and a trailing word boundary).
Stateful code (proxy rotation, the fetch retry loop, the page loops of
scrape_all_pages and run) is embedded as explicit state passing over scripts
of externally produced outcomes (rendered pages, exceptions, interrupts).
-/

/-- ASCII lowercasing; Python re.IGNORECASE folds ASCII letters this way. -/
def lowerChar (c : Char) : Char :=
  if 'A' ≤ c ∧ c ≤ 'Z' then Char.ofNat (c.toNat + 32) else c

/-- Drop a case-insensitive literal from the front of the input, returning the
rest on success.  Models matching an IGNORECASE literal of the pattern. -/
def ciDrop : List Char → List Char → Option (List Char)
  | [], s => some s
  | _ :: _, [] => none
  | p :: ps, c :: cs => if lowerChar p = lowerChar c then ciDrop ps cs else none

/-- Python regex class \s over ASCII input. -/
def isWs (c : Char) : Bool :=
  c == ' ' || c == '\t' || c == '\n' || c == '\r' || c == '\x0b' || c == '\x0c'

/-- ASCII letter. -/
def isAsciiAlpha (c : Char) : Bool :=
  ('a' ≤ c ∧ c ≤ 'z') || ('A' ≤ c ∧ c ≤ 'Z')

/-- ASCII digit. -/
def isDigitC (c : Char) : Bool := '0' ≤ c ∧ c ≤ '9'

/-- Python regex word character \w over ASCII input. -/
def isWordC (c : Char) : Bool := isAsciiAlpha c || isDigitC c || c == '_'

/-- Atoms of the regular expressions appearing in the source.  Star, plus and
option are only ever applied to single character classes there, so they are
restricted to classes, which keeps the matcher structurally terminating. -/
inductive RE where
  | lit : String → RE
  | cls : (Char → Bool) → RE
  | starCls : (Char → Bool) → RE
  | plusCls : (Char → Bool) → RE
  | optCls : (Char → Bool) → RE
  | lazyStarNoNl : RE
  | altLit : List String → RE
  | bAfterWord : RE

/-- All ways an atom can consume a prefix of the input, as the list of
possible remainders in Python backtracking preference order: greedy
quantifiers longest first, the lazy .*? shortest first, alternation in
declared order.  bAfterWord models a \b that follows a word character, as in
the one source pattern using \b: it succeeds exactly when the input is
exhausted or continues with a non-word character. -/
def matchAtom : RE → List Char → List (List Char)
  | .lit w, s =>
    match ciDrop w.data s with
    | some r => [r]
    | none => []
  | .cls p, s =>
    match s with
    | [] => []
    | c :: r => if p c then [r] else []
  | .starCls p, s =>
    let n := (s.takeWhile p).length
    (List.range (n + 1)).reverse.map (fun k => s.drop k)
  | .plusCls p, s =>
    let n := (s.takeWhile p).length
    ((List.range n).map (fun k => s.drop (k + 1))).reverse
  | .optCls p, s =>
    match s with
    | [] => [s]
    | c :: r => if p c then [r, s] else [s]
  | .lazyStarNoNl, s =>
    let n := (s.takeWhile (fun c => !(c == '\n'))).length
    (List.range (n + 1)).map (fun k => s.drop k)
  | .altLit ws, s => ws.filterMap (fun w => ciDrop w.data s)
  | .bAfterWord, s =>
    match s with
    | [] => [s]
    | c :: _ => if isWordC c then [] else [s]

/-- Remainders after matching a whole sequence of atoms, in backtracking
preference order. -/
def matchSeq : List RE → List Char → List (List Char)
  | [], s => [s]
  | a :: rs, s => (matchAtom a s).flatMap (matchSeq rs)

/-- A source pattern: the atoms before the single capture group, the group
body, and the atoms after it.  Every regex in the source has exactly one
capture group. -/
structure Pat where
  pre : List RE
  grp : List RE
  post : List RE

/-- Match a pattern anchored at the start of the input and return the text of
capture group 1 of the first (preferred) full match, as Python would. -/
def matchPatAt (p : Pat) (s : List Char) : Option (List Char) :=
  ((matchSeq p.pre s).flatMap (fun s1 =>
    (matchSeq p.grp s1).flatMap (fun s2 =>
      (matchSeq p.post s2).map (fun _ => s1.take (s1.length - s2.length))))).head?

/-- Leftmost search: try every start position from the left, as re.search. -/
def reSearchAux (p : Pat) : List Char → Option (List Char)
  | [] => matchPatAt p []
  | c :: t => (matchPatAt p (c :: t)) <|> reSearchAux p t

/-- re.search(pattern, text, re.IGNORECASE).group(1), or none when the
pattern does not match anywhere. -/
def reSearch (p : Pat) (s : String) : Option String :=
  (reSearchAux p s.data).map (fun cs => String.mk cs)

/-- Character ranges used by the source patterns. -/
def wsC : Char → Bool := isWs

/-- The class [^,\n]. -/
def notCommaNl (c : Char) : Bool := !(c == ',') && !(c == '\n')

/-- The class [A-Z] under IGNORECASE, hence any ASCII letter. -/
def alphaC : Char → Bool := isAsciiAlpha

/-- The class [a-z\s] under IGNORECASE. -/
def alphaWs (c : Char) : Bool := isAsciiAlpha c || isWs c

/-- The class [0-9]. -/
def digitC : Char → Bool := isDigitC

/-- The class [0-9,]. -/
def digitComma (c : Char) : Bool := isDigitC c || c == ','

/-- The class for an escaped dot. -/
def dotC (c : Char) : Bool := c == '.'

/-- The class [MKB] under IGNORECASE, and M? alone. -/
def mC (c : Char) : Bool := c == 'M' || c == 'm'

/-- The class [MKB] under IGNORECASE. -/
def mkbC (c : Char) : Bool :=
  c == 'M' || c == 'm' || c == 'K' || c == 'k' || c == 'B' || c == 'b'

/-- First location pattern of the source, Country: then \s* then the group
of a [^,\n]+ run, a comma, \s*, and the literal New South Wales. -/
def locPat1 : Pat :=
  ⟨[.lit "Country:", .starCls wsC],
   [.plusCls notCommaNl, .lit ",", .starCls wsC, .lit "New South Wales"],
   []⟩

/-- Second location pattern, as locPat1 with the literal Location: in front. -/
def locPat2 : Pat :=
  ⟨[.lit "Location:", .starCls wsC],
   [.plusCls notCommaNl, .lit ",", .starCls wsC, .lit "New South Wales"],
   []⟩

/-- Third location pattern, the group of [A-Z][a-z\s]+ then a comma, \s*, and
the literal New South Wales. -/
def locPat3 : Pat :=
  ⟨[],
   [.cls alphaC, .plusCls alphaWs, .lit ",", .starCls wsC, .lit "New South Wales"],
   []⟩

/-- Fourth location pattern, as locPat3 with the literal NSW at the end. -/
def locPat4 : Pat :=
  ⟨[],
   [.cls alphaC, .plusCls alphaWs, .lit ",", .starCls wsC, .lit "NSW"],
   []⟩

/-- Fifth location pattern, the group of [A-Z][a-z\s]+ followed outside the
group by a comma, \s*, and the literal Australia. -/
def locPat5 : Pat :=
  ⟨[],
   [.cls alphaC, .plusCls alphaWs],
   [.lit ",", .starCls wsC, .lit "Australia"]⟩

/-- Sixth location pattern, Country: then \s*, the group of a [^,\n]+ run,
then a comma, \s*, another [^,\n]+ run and the literal Australia. -/
def locPat6 : Pat :=
  ⟨[.lit "Country:", .starCls wsC],
   [.plusCls notCommaNl],
   [.lit ",", .starCls wsC, .plusCls notCommaNl, .lit "Australia"]⟩

/-- The location_patterns list of extract_company_data_enhanced, in source
order. -/
def locationPatterns : List Pat :=
  [locPat1, locPat2, locPat3, locPat4, locPat5, locPat6]

/-- The capture group [0-9,]+ then an optional dot, [0-9]*, and an optional
[MKB], shared by the second, third and fourth revenue patterns. -/
def revGrp : List RE :=
  [.plusCls digitComma, .optCls dotC, .starCls digitC, .optCls mkbC]

/-- First revenue pattern, the literal Sales Revenue ($M): then \s*, a dollar
sign, and the group [0-9,]+ optional dot [0-9]* optional M. -/
def revPat1 : Pat :=
  ⟨[.lit "Sales Revenue ($M):", .starCls wsC, .lit "$"],
   [.plusCls digitComma, .optCls dotC, .starCls digitC, .optCls mC],
   []⟩

/-- Second revenue pattern, Revenue then a lazy .*?, a dollar sign, and the
shared group. -/
def revPat2 : Pat :=
  ⟨[.lit "Revenue", .lazyStarNoNl, .lit "$"], revGrp, []⟩

/-- Third revenue pattern, a dollar sign, the shared group, then \s* and the
alternation of the literals revenue and sales. -/
def revPat3 : Pat :=
  ⟨[.lit "$"], revGrp, [.starCls wsC, .altLit ["revenue", "sales"]]⟩

/-- Fourth revenue pattern, Sales then a lazy .*?, a dollar sign, and the
shared group. -/
def revPat4 : Pat :=
  ⟨[.lit "Sales", .lazyStarNoNl, .lit "$"], revGrp, []⟩

/-- Fifth revenue pattern, a dollar sign, the group [0-9,]+ optional dot
[0-9]* then the literal M, and a word boundary after it. -/
def revPat5 : Pat :=
  ⟨[.lit "$"],
   [.plusCls digitComma, .optCls dotC, .starCls digitC, .lit "M"],
   [.bAfterWord]⟩

/-- The revenue_patterns list of extract_company_data_enhanced, in source
order. -/
def revenuePatterns : List Pat :=
  [revPat1, revPat2, revPat3, revPat4, revPat5]

/-- Python str.strip of the captured group, over the default whitespace set. -/
def pyStrip (s : String) : String :=
  String.mk (((s.data.dropWhile isWs).reverse.dropWhile isWs).reverse)

/-- Python str.replace of every comma by the empty string. -/
def removeCommas (s : String) : String :=
  String.mk (s.data.filter (fun c => !(c == ',')))

/-- Exact, case-sensitive list-level match at the front of the haystack. -/
def plainStarts : List Char → List Char → Bool
  | [], _ => true
  | _ :: _, [] => false
  | a :: as, b :: bs => a == b && plainStarts as bs

/-- Python substring membership, needle in haystack, case-sensitive. -/
def containsSub (needle : List Char) : List Char → Bool
  | [] => plainStarts needle []
  | b :: t => plainStarts needle (b :: t) || containsSub needle t

/-- Python str.endswith with a one-character suffix: the last character is
that character. -/
def pyEndsWith1 (s : String) (c : Char) : Bool :=
  match s.data.getLast? with
  | some d => d == c
  | none => false

/-- The cleanup filter of the location loop: the stripped capture is accepted
when Country: does not occur in it and its length exceeds 2. -/
def locAcceptB (location : String) : Bool :=
  !(containsSub "Country:".data location.data) && decide (2 < location.length)

/-- The for pattern in location_patterns loop of
extract_company_data_enhanced: search each pattern over the combined text in
order; a match whose stripped capture passes the cleanup filter sets the
field and stops the loop; otherwise the loop proceeds to the next pattern,
and the field keeps its initial empty value when no pattern is accepted. -/
def locLoop : List Pat → String → String
  | [], _ => ""
  | p :: ps, text =>
    match reSearch p text with
    | some g =>
      let location := pyStrip g
      if locAcceptB location then location else locLoop ps text
    | none => locLoop ps text

/-- Location extraction of extract_company_data_enhanced over the combined
search text. -/
def extractLocation (combined : String) : String :=
  locLoop locationPatterns combined

/-- The revenue normalization of extract_company_data_enhanced: remove the
commas of the capture; when the result does not end in M, B or K and it
contains a dot or is longer than 3 characters, append M. -/
def normalizeRevenue (g : String) : String :=
  let revenue := removeCommas g
  if !(pyEndsWith1 revenue 'M') && !(pyEndsWith1 revenue 'B') && !(pyEndsWith1 revenue 'K') then
    if revenue.data.contains '.' || decide (3 < revenue.length) then revenue ++ "M"
    else revenue
  else revenue

/-- The for pattern in revenue_patterns loop of
extract_company_data_enhanced: the first pattern that matches sets the field
to its normalized capture and stops the loop unconditionally. -/
def revLoop : List Pat → String → String
  | [], _ => ""
  | p :: ps, text =>
    match reSearch p text with
    | some g => normalizeRevenue g
    | none => revLoop ps text

/-- Revenue extraction of extract_company_data_enhanced over the combined
search text. -/
def extractRevenue (combined : String) : String :=
  revLoop revenuePatterns combined

/-- One row produced by extract_company_data_enhanced: the company_data dict
is built with exactly these four keys, so every record carries all four
fields by construction. -/
structure CompanyRecord where
  companyName : String
  industry : String
  location : String
  salesRevenueM : String
deriving DecidableEq

/-- What extract_company_data_enhanced reads from one company profile link:
the link text (after get_text strip) and the concatenated text of the parent
and sibling search elements. -/
structure Anchor where
  name : String
  combinedText : String
deriving DecidableEq

/-- Processing of one link either proceeds with the data read from the
markup, or raises somewhere inside the per-link try block. -/
inductive AnchorOutcome where
  | ok : Anchor → AnchorOutcome
  | raises : AnchorOutcome
deriving DecidableEq

/-- The company_data dict built for one link: name from the link text, the
constant industry, and the location and revenue loops over the combined
text. -/
def companyDataOf (a : Anchor) : CompanyRecord :=
  ⟨a.name, "Wholesale Trade", extractLocation a.combinedText,
   extractRevenue a.combinedText⟩

/-- The for link in company_links loop: a link whose name is empty or
shorter than 3 characters is skipped by continue, a per-link exception is
caught and skipped by continue, and every other link appends its record. -/
def extractLoop : List AnchorOutcome → List CompanyRecord
  | [] => []
  | .ok a :: rest =>
    if a.name = "" ∨ a.name.length < 3 then extractLoop rest
    else companyDataOf a :: extractLoop rest
  | .raises :: rest => extractLoop rest

/-- extract_company_data_enhanced: locating the links may itself raise, in
which case the outer except returns the empty list. -/
def extract_company_data_enhanced :
    Except Unit (List AnchorOutcome) → List CompanyRecord
  | .error _ => []
  | .ok links => extractLoop links

/-- What extract_data_from_page of the universal scraper reads from one
container: the stripped text of the title element when one matched, the
description likewise, and the href of the link element when present. -/
structure Container where
  title : Option String
  description : Option String
  link : Option String
deriving DecidableEq

/-- One item dict of extract_data_from_page, with its positional metadata. -/
structure Item where
  pageNumber : Nat
  itemIndex : Nat
  title : Option String
  description : Option String
  link : Option String
deriving DecidableEq

/-- Processing of one container either proceeds or raises inside the loop. -/
inductive ContainerOutcome where
  | ok : Container → ContainerOutcome
  | raises : ContainerOutcome
deriving DecidableEq

/-- True on outcomes that are not an exception. -/
def notRaises : ContainerOutcome → Bool
  | .ok _ => true
  | .raises => false

/-- The item built for the container at position idx of the enumeration. -/
def itemOf (pn idx : Nat) (c : Container) : Item :=
  ⟨pn, idx + 1, c.title, c.description, c.link⟩

/-- The guard if item.get title of the source: the title key was set and its
value is non-empty. -/
def itemKeptTitle (c : Container) : Bool :=
  match c.title with
  | some t => !(t == "")
  | none => false

/-- The for idx, container in enumerate loop of extract_data_from_page: an
item with a non-empty title is appended; an exception inside the loop is
caught by the except around the whole loop, so the remaining containers are
not processed and the items accumulated so far are returned. -/
def universalLoop : List ContainerOutcome → Nat → Nat → List Item
  | [], _, _ => []
  | .ok c :: rest, pn, idx =>
    if itemKeptTitle c then itemOf pn idx c :: universalLoop rest pn (idx + 1)
    else universalLoop rest pn (idx + 1)
  | .raises :: _, _, _ => []

/-- extract_data_from_page: container location may raise, yielding the empty
list through the same except. -/
def extract_data_from_page (outcome : Except Unit (List ContainerOutcome))
    (pn : Nat) : List Item :=
  match outcome with
  | .error _ => []
  | .ok cs => universalLoop cs pn 0

/-- A proxy identity of the universal scraper. -/
structure Proxy where
  ip : String
  port : String
deriving DecidableEq

/-- The mutable session state of UniversalWebScraper touched by rotation:
driver is none when no browser session is live, some p for a session bound
to proxy option p. -/
structure ScraperState where
  driver : Option (Option Proxy)
  proxy_list : List Proxy
  current_proxy_index : Nat
  session_count : Nat
deriving DecidableEq

/-- setup_driver binds a fresh browser session to the given proxy option. -/
def setup_driver (st : ScraperState) (p : Option Proxy) : ScraperState :=
  { st with driver := some p }

/-- rotate_proxy: with an empty pool it returns at once; otherwise it quits
the driver, advances the index modulo the pool length, rebuilds the session
on the proxy at the new index, and resets session_count. -/
def rotate_proxy (st : ScraperState) : ScraperState :=
  if st.proxy_list.isEmpty then st
  else
    let st1 : ScraperState := { st with driver := none }
    let idx := (st.current_proxy_index + 1) % st.proxy_list.length
    let st2 : ScraperState := { st1 with current_proxy_index := idx }
    let st3 := setup_driver st2 (st2.proxy_list.get? idx)
    { st3 with session_count := 0 }

/-- Iterated rotation. -/
def rotateN : Nat → ScraperState → ScraperState
  | 0, st => st
  | k + 1, st => rotateN k (rotate_proxy st)

/-- Outcome of one browser navigation inside get_page_content: a rendered
page whose markup is observed through extraction, a page matching a block
indicator, or an exception (timeout or network failure). -/
inductive FetchOutcome where
  | success : Except Unit (List ContainerOutcome) → FetchOutcome
  | blocked : FetchOutcome
  | failed : FetchOutcome

/-- True when every scripted outcome is an exception. -/
def allFailedB (l : List FetchOutcome) : Bool :=
  l.all (fun o => match o with | .failed => true | _ => false)

/-- Result of get_page_content: the soup when a clean page was obtained, the
number of navigation attempts consumed, and the state after the call. -/
structure FetchResult where
  soup : Option (Except Unit (List ContainerOutcome))
  attempts : Nat
  state : ScraperState

/-- get_page_content with retry logic, over a script of navigation outcomes
and the retry_count parameter (max_retries is the constant 3).  On a clean
success the soup is returned and session_count is incremented.  On a blocked
page or an exception, the call rotates the proxy and retries recursively
only when retry_count is below 3 and the proxy list is non-empty; otherwise
it returns none. -/
def get_page_content : ScraperState → List FetchOutcome → Nat → FetchResult
  | st, [], _ => ⟨none, 0, st⟩
  | st, .success s :: _, _ =>
    ⟨some s, 1, { st with session_count := st.session_count + 1 }⟩
  | st, .blocked :: rest, rc =>
    if rc < 3 ∧ ¬ st.proxy_list.isEmpty then
      let r := get_page_content (rotate_proxy st) rest (rc + 1)
      ⟨r.soup, r.attempts + 1, r.state⟩
    else ⟨none, 1, st⟩
  | st, .failed :: rest, rc =>
    if rc < 3 ∧ ¬ st.proxy_list.isEmpty then
      let r := get_page_content (rotate_proxy st) rest (rc + 1)
      ⟨r.soup, r.attempts + 1, r.state⟩
    else ⟨none, 1, st⟩

/-- One rendered page of the DNB scraper as scrape_all_pages observes it:
the link outcomes its extraction walks, and whether has_next_page holds. -/
structure SelSoup where
  anchors : Except Unit (List AnchorOutcome)
  hasNext : Bool

/-- Result of scrape_all_pages: the accumulated records and how many pages
were fetched. -/
structure SelRunResult where
  companies : List CompanyRecord
  pagesFetched : Nat
deriving DecidableEq

/-- The while page_num ≤ max_pages loop of scrape_all_pages over the script
of successive pages (the script length plays the role of the remaining page
budget).  A page that fails to load stops the loop; a page whose extraction
is empty stops the loop; a page without a next-page affordance stops after
accumulating; otherwise the loop advances by one page. -/
def scrape_all_pages : List (Option SelSoup) → SelRunResult
  | [] => ⟨[], 0⟩
  | none :: _ => ⟨[], 1⟩
  | some s :: rest =>
    let cs := extract_company_data_enhanced s.anchors
    if cs.isEmpty then ⟨[], 1⟩
    else if ¬ s.hasNext then ⟨cs, 1⟩
    else
      let r := scrape_all_pages rest
      ⟨cs ++ r.companies, r.pagesFetched + 1⟩

/-- One iteration of the universal run loop as scripted from outside: the
page outcome produced by get_page_content (none when it gave up), a
KeyboardInterrupt raised during the iteration, or an unexpected exception. -/
inductive RunEvent where
  | page : Option (Except Unit (List ContainerOutcome)) → RunEvent
  | interrupt : RunEvent
  | failure : RunEvent

/-- Result of run: the accumulated items, the number of page iterations that
invoked get_page_content, and the list of datasets written to the CSV file
(one entry per actual write). -/
structure RunResult where
  scraped : List Item
  pagesFetched : Nat
  writes : List (List Item)
deriving DecidableEq

/-- save_to_csv writes the accumulated data once, unless it is empty, in
which case it returns without writing. -/
def saveWrites (data : List Item) : List (List Item) :=
  if data.isEmpty then [] else [data]

/-- The for page_num loop of run over a script of events, carrying the
current page number, the accumulator and the count of fetched pages.  An
exhausted script is the page ceiling: the loop ends and the final
save-if-non-empty runs.  A page that could not be loaded breaks the loop,
reaching the same final save.  A loaded page is extracted; when no items are
found the loop continues to the next page; otherwise the items are appended.
A KeyboardInterrupt or an unexpected exception ends run through the handlers
that save the accumulated data when it is non-empty. -/
def runEvents : List RunEvent → Nat → List Item → Nat → RunResult
  | [], _, acc, n => ⟨acc, n, saveWrites acc⟩
  | .page none :: _, _, acc, n => ⟨acc, n + 1, saveWrites acc⟩
  | .page (some soup) :: rest, pn, acc, n =>
    let items := extract_data_from_page soup pn
    if items.isEmpty then runEvents rest (pn + 1) acc (n + 1)
    else runEvents rest (pn + 1) (acc ++ items) (n + 1)
  | .interrupt :: _, _, acc, n => ⟨acc, n, saveWrites acc⟩
  | .failure :: _, _, acc, n => ⟨acc, n, saveWrites acc⟩

/-- Rotation never changes the proxy pool itself: no identity is removed. -/
theorem rotate_proxy_proxy_list (st : ScraperState) :
    (rotate_proxy st).proxy_list = st.proxy_list := by
  unfold rotate_proxy setup_driver
  split <;> rfl

/-- With a non-empty pool, rotation advances the index modulo the pool
length. -/
theorem rotate_proxy_index (st : ScraperState) (h : st.proxy_list ≠ []) :
    (rotate_proxy st).current_proxy_index
      = (st.current_proxy_index + 1) % st.proxy_list.length := by
  unfold rotate_proxy setup_driver
  have h' : st.proxy_list.isEmpty = false := by
    cases hl : st.proxy_list with
    | nil => exact absurd hl h
    | cons a l => rfl
  rw [h']
  rfl

/-- With a non-empty pool, rotation resets session_count. -/
theorem rotate_proxy_session (st : ScraperState) (h : st.proxy_list ≠ []) :
    (rotate_proxy st).session_count = 0 := by
  unfold rotate_proxy setup_driver
  have h' : st.proxy_list.isEmpty = false := by
    cases hl : st.proxy_list with
    | nil => exact absurd hl h
    | cons a l => rfl
  rw [h']
  rfl

/-- Iterated rotation keeps the pool and moves the index by k modulo the
pool length. -/
theorem rotateN_index :
    ∀ (k : Nat) (st : ScraperState), st.proxy_list ≠ [] →
      st.current_proxy_index < st.proxy_list.length →
      (rotateN k st).proxy_list = st.proxy_list
      ∧ (rotateN k st).current_proxy_index
          = (st.current_proxy_index + k) % st.proxy_list.length := by
  intro k
  induction k with
  | zero =>
    intro st h hlt
    exact ⟨rfl, (Nat.mod_eq_of_lt hlt).symm⟩
  | succ k ih =>
    intro st h hlt
    have hpool := rotate_proxy_proxy_list st
    have hidx := rotate_proxy_index st h
    have h1 : (rotate_proxy st).proxy_list ≠ [] := by rw [hpool]; exact h
    have hlt1 : (rotate_proxy st).current_proxy_index < (rotate_proxy st).proxy_list.length := by
      rw [hpool, hidx]
      exact Nat.mod_lt _ (List.length_pos.mpr h)
    obtain ⟨hp, hi⟩ := ih (rotate_proxy st) h1 hlt1
    refine ⟨by rw [show rotateN (k + 1) st = rotateN k (rotate_proxy st) from rfl, hp, hpool], ?_⟩
    rw [show rotateN (k + 1) st = rotateN k (rotate_proxy st) from rfl, hi, hidx, hpool,
      Nat.mod_add_mod]
    congr 1
    omega

/-- Every record appended by the link loop carries the constant industry. -/
theorem extractLoop_industry :
    ∀ (l : List AnchorOutcome) (r : CompanyRecord),
      r ∈ extractLoop l → r.industry = "Wholesale Trade" := by
  intro l
  induction l with
  | nil => intro r hr; cases hr
  | cons o rest ih =>
    intro r hr
    cases o with
    | ok a =>
      by_cases hname : a.name = "" ∨ a.name.length < 3
      · rw [extractLoop, if_pos hname] at hr
        exact ih r hr
      · rw [extractLoop, if_neg hname] at hr
        rcases List.mem_cons.mp hr with h | h
        · rw [h]; rfl
        · exact ih r h
    | raises => exact ih r hr

/-- Every record appended by the link loop has a name of length at least 3. -/
theorem extractLoop_name_len :
    ∀ (l : List AnchorOutcome) (r : CompanyRecord),
      r ∈ extractLoop l → 3 ≤ r.companyName.length := by
  intro l
  induction l with
  | nil => intro r hr; cases hr
  | cons o rest ih =>
    intro r hr
    cases o with
    | ok a =>
      by_cases hname : a.name = "" ∨ a.name.length < 3
      · rw [extractLoop, if_pos hname] at hr
        exact ih r hr
      · rw [extractLoop, if_neg hname] at hr
        rcases List.mem_cons.mp hr with h | h
        · rw [h]
          push_neg at hname
          exact hname.2
        · exact ih r h
    | raises => exact ih r hr

/-- A per-link exception is skipped by continue: the loop result is the one
of the same list without that outcome, so all later links are processed. -/
theorem extractLoop_raises :
    ∀ (pre suf : List AnchorOutcome),
      extractLoop (pre ++ AnchorOutcome.raises :: suf) = extractLoop (pre ++ suf) := by
  intro pre
  induction pre with
  | nil => intro suf; rfl
  | cons o rest ih =>
    intro suf
    cases o with
    | ok a =>
      by_cases hname : a.name = "" ∨ a.name.length < 3
      · simp only [List.cons_append, extractLoop, if_pos hname]
        exact ih suf
      · simp only [List.cons_append, extractLoop, if_neg hname]
        exact congrArg (List.cons (companyDataOf a)) (ih suf)
    | raises =>
      simp only [List.cons_append, extractLoop]
      exact ih suf

/-- Every item kept by the container loop has a found, non-empty title. -/
theorem universalLoop_title :
    ∀ (cs : List ContainerOutcome) (pn idx : Nat) (it : Item),
      it ∈ universalLoop cs pn idx → ∃ t, it.title = some t ∧ t ≠ "" := by
  intro cs
  induction cs with
  | nil => intro pn idx it hit; cases hit
  | cons o rest ih =>
    intro pn idx it hit
    cases o with
    | ok c =>
      by_cases hk : itemKeptTitle c = true
      · rw [universalLoop, if_pos hk] at hit
        rcases List.mem_cons.mp hit with h | h
        · cases hc : c.title with
          | none => rw [itemKeptTitle, hc] at hk; cases hk
          | some t =>
            refine ⟨t, ?_, ?_⟩
            · rw [h]; exact hc
            · rw [itemKeptTitle, hc] at hk
              intro ht
              rw [ht] at hk
              cases hk
        · exact ih pn (idx + 1) it h
      · rw [universalLoop, if_neg hk] at hit
        exact ih pn (idx + 1) it hit
    | raises => cases hit

/-- The container loop only ever sees the containers before the first
exception: an exception aborts the loop for the remaining containers. -/
theorem universalLoop_takeWhile :
    ∀ (cs : List ContainerOutcome) (pn idx : Nat),
      universalLoop cs pn idx = universalLoop (cs.takeWhile notRaises) pn idx := by
  intro cs
  induction cs with
  | nil => intro pn idx; rfl
  | cons o rest ih =>
    intro pn idx
    cases o with
    | ok c =>
      rw [show (ContainerOutcome.ok c :: rest).takeWhile notRaises
            = ContainerOutcome.ok c :: rest.takeWhile notRaises from by
          rw [List.takeWhile_cons]; rfl]
      by_cases hk : itemKeptTitle c = true
      · rw [universalLoop, if_pos hk, universalLoop, if_pos hk, ih]
      · rw [universalLoop, if_neg hk, universalLoop, if_neg hk, ih]
    | raises => rfl

/-- The first pattern of the location list whose stripped capture passes the
cleanup filter determines the field; every pattern after it is never
consulted. -/
theorem locLoop_first :
    ∀ (ps1 : List Pat) (p : Pat) (ps2 : List Pat) (text v : String),
      (∀ q ∈ ps1, ∀ w, reSearch q text = some w → locAcceptB (pyStrip w) = false) →
      reSearch p text = some v → locAcceptB (pyStrip v) = true →
      locLoop (ps1 ++ p :: ps2) text = pyStrip v := by
  intro ps1
  induction ps1 with
  | nil =>
    intro p ps2 text v _ hsearch haccept
    rw [List.nil_append, locLoop, hsearch]
    simp only [haccept, if_pos]
  | cons q rest ih =>
    intro p ps2 text v hrej hsearch haccept
    rw [List.cons_append, locLoop]
    cases hq : reSearch q text with
    | none => exact ih p ps2 text v (fun r hr w hw => hrej r (List.mem_cons_of_mem q hr) w hw) hsearch haccept
    | some w =>
      have hw := hrej q (List.mem_cons_self q rest) w hq
      simp only [hw, Bool.false_eq_true, if_neg, ite_false]
      exact ih p ps2 text v (fun r hr w' hw' => hrej r (List.mem_cons_of_mem q hr) w' hw') hsearch haccept

/-- When no pattern of the list matches with an accepted capture, the
location field keeps its initial empty value. -/
theorem locLoop_none :
    ∀ (ps : List Pat) (text : String),
      (∀ q ∈ ps, ∀ w, reSearch q text = some w → locAcceptB (pyStrip w) = false) →
      locLoop ps text = "" := by
  intro ps
  induction ps with
  | nil => intro text _; rfl
  | cons q rest ih =>
    intro text hrej
    rw [locLoop]
    cases hq : reSearch q text with
    | none => exact ih text (fun r hr w hw => hrej r (List.mem_cons_of_mem q hr) w hw)
    | some w =>
      have hw := hrej q (List.mem_cons_self q rest) w hq
      simp only [hw, Bool.false_eq_true, if_neg, ite_false]
      exact ih text (fun r hr w' hw' => hrej r (List.mem_cons_of_mem q hr) w' hw')

/-- The first pattern of the revenue list that matches determines the field
unconditionally; every pattern after it is never consulted. -/
theorem revLoop_first :
    ∀ (ps1 : List Pat) (p : Pat) (ps2 : List Pat) (text v : String),
      (∀ q ∈ ps1, reSearch q text = none) →
      reSearch p text = some v →
      revLoop (ps1 ++ p :: ps2) text = normalizeRevenue v := by
  intro ps1
  induction ps1 with
  | nil =>
    intro p ps2 text v _ hsearch
    rw [List.nil_append, revLoop, hsearch]
  | cons q rest ih =>
    intro p ps2 text v hnone hsearch
    rw [List.cons_append, revLoop, hnone q (List.mem_cons_self q rest)]
    exact ih p ps2 text v (fun r hr => hnone r (List.mem_cons_of_mem q hr)) hsearch

/-- When no pattern of the revenue list matches, the revenue field keeps its
initial empty value. -/
theorem revLoop_none :
    ∀ (ps : List Pat) (text : String),
      (∀ q ∈ ps, reSearch q text = none) → revLoop ps text = "" := by
  intro ps
  induction ps with
  | nil => intro text _; rfl
  | cons q rest ih =>
    intro text hnone
    rw [revLoop, hnone q (List.mem_cons_self q rest)]
    exact ih text (fun r hr => hnone r (List.mem_cons_of_mem q hr))

/-- Under a persistently failing script with a non-empty pool, starting from
retry_count rc at most 3, get_page_content consumes exactly 4 - rc attempts
and produces no soup. -/
theorem gpc_all_failed :
    ∀ (outs : List FetchOutcome) (st : ScraperState) (rc : Nat),
      st.proxy_list ≠ [] → allFailedB outs = true →
      4 ≤ rc + outs.length → rc ≤ 3 →
      (get_page_content st outs rc).soup = none
      ∧ (get_page_content st outs rc).attempts = 4 - rc := by
  intro outs
  induction outs with
  | nil =>
    intro st rc _ _ h4 h3
    simp only [List.length_nil] at h4
    omega
  | cons o rest ih =>
    intro st rc hpool hall h4 h3
    rw [allFailedB, List.all_cons, Bool.and_eq_true] at hall
    obtain ⟨ho, hrest⟩ := hall
    cases o with
    | success s => cases ho
    | blocked => cases ho
    | failed =>
      by_cases hrc : rc < 3
      · have hne : ¬ st.proxy_list.isEmpty = true := by
          cases hl : st.proxy_list with
          | nil => exact absurd hl hpool
          | cons a l => simp
        have hcond : rc < 3 ∧ ¬ st.proxy_list.isEmpty = true := ⟨hrc, hne⟩
        have hpool' : (rotate_proxy st).proxy_list ≠ [] := by
          rw [rotate_proxy_proxy_list]; exact hpool
        have h4' : 4 ≤ (rc + 1) + rest.length := by
          simp only [List.length_cons] at h4; omega
        obtain ⟨hs, ha⟩ := ih (rotate_proxy st) (rc + 1) hpool' hrest h4' (by omega)
        rw [get_page_content, if_pos hcond]
        constructor
        · show (get_page_content (rotate_proxy st) rest (rc + 1)).soup = none
          exact hs
        · show (get_page_content (rotate_proxy st) rest (rc + 1)).attempts + 1 = 4 - rc
          rw [ha]
          omega
      · have hcond : ¬ (rc < 3 ∧ ¬ st.proxy_list.isEmpty = true) := fun hc => hrc hc.1
        rw [get_page_content, if_neg hcond]
        refine ⟨rfl, ?_⟩
        show (1 : Nat) = 4 - rc
        omega

/-- On every termination path of the run loop, the accumulated data is
written exactly once when it is non-empty and never otherwise. -/
theorem runEvents_writes :
    ∀ (evs : List RunEvent) (pn : Nat) (acc : List Item) (n : Nat),
      (runEvents evs pn acc n).writes
        = if (runEvents evs pn acc n).scraped.isEmpty then []
          else [(runEvents evs pn acc n).scraped] := by
  intro evs
  induction evs with
  | nil => intro pn acc n; rfl
  | cons e rest ih =>
    intro pn acc n
    cases e with
    | page op =>
      cases op with
      | none => rfl
      | some soup =>
        rw [runEvents]
        by_cases hi : (extract_data_from_page soup pn).isEmpty = true
        · rw [if_pos hi]
          exact ih (pn + 1) acc (n + 1)
        · rw [if_neg hi]
          exact ih (pn + 1) (acc ++ extract_data_from_page soup pn) (n + 1)
    | interrupt => rfl
    | failure => rfl

/-- When every page of a prefix extracts at least one record and offers a
next page, and the following page loads cleanly but extracts nothing, the
DNB page loop returns exactly the records of the prefix and fetches exactly
the prefix pages plus the empty one. -/
theorem scrapeStopsAtEmpty :
    ∀ (pre : List SelSoup) (s : SelSoup) (rest : List (Option SelSoup)),
      (∀ q ∈ pre, extract_company_data_enhanced q.anchors ≠ [] ∧ q.hasNext = true) →
      extract_company_data_enhanced s.anchors = [] →
      scrape_all_pages (pre.map some ++ some s :: rest)
        = ⟨(pre.map (fun q => extract_company_data_enhanced q.anchors)).flatten,
           pre.length + 1⟩ := by
  intro pre
  induction pre with
  | nil =>
    intro s rest _ hempty
    rw [List.map_nil, List.nil_append, scrape_all_pages]
    have hi : (extract_company_data_enhanced s.anchors).isEmpty = true := by
      rw [hempty]; rfl
    rw [if_pos hi]
    rfl
  | cons q pre ih =>
    intro s rest hgood hempty
    have hq := hgood q (List.mem_cons_self q pre)
    have hne : ¬ (extract_company_data_enhanced q.anchors).isEmpty = true := by
      cases hl : extract_company_data_enhanced q.anchors with
      | nil => exact absurd hl hq.1
      | cons a l => simp
    rw [List.map_cons, List.cons_append, scrape_all_pages, if_neg hne,
      if_neg (not_not_intro hq.2),
      ih s rest (fun r hr => hgood r (List.mem_cons_of_mem q hr)) hempty]
    rfl

/-- String append acts as list append on the underlying character data. -/
theorem strDataAppend (s t : String) : (s ++ t).data = s.data ++ t.data := by
  cases s
  cases t
  rfl

/-- A list has last element c exactly when it decomposes as some prefix
followed by [c]. -/
theorem getLastSome_iff :
    ∀ (l : List Char) (c : Char), l.getLast? = some c ↔ ∃ t, l = t ++ [c] := by
  intro l
  induction l with
  | nil =>
    intro c
    constructor
    · intro h; cases h
    · rintro ⟨t, ht⟩
      have := congrArg List.length ht
      simp at this
  | cons a l ih =>
    intro c
    cases l with
    | nil =>
      constructor
      · intro h
        have ha : a = c := by simpa using h
        exact ⟨[], by rw [ha]; rfl⟩
      · rintro ⟨t, ht⟩
        cases t with
        | nil =>
          have ha : a = c := by simpa using ht
          simp [ha]
        | cons x xs =>
          have := congrArg List.length ht
          simp at this
    | cons b l' =>
      rw [List.getLast?_cons_cons, ih c]
      constructor
      · rintro ⟨t, ht⟩
        exact ⟨a :: t, by rw [ht]; rfl⟩
      · rintro ⟨t, ht⟩
        cases t with
        | nil =>
          have := congrArg List.length ht
          simp at this
        | cons x xs =>
          injection ht with h1 h2
          exact ⟨xs, h2⟩

/-- The embedded endswith agrees with suffix decomposition. -/
theorem pyEndsWith1_iff (s : String) (c : Char) :
    pyEndsWith1 s c = true ↔ ∃ t, s.data = t ++ [c] := by
  constructor
  · intro he
    rw [pyEndsWith1] at he
    cases h : s.data.getLast? with
    | none => rw [h] at he; cases he
    | some d =>
      rw [h] at he
      have hd : d = c := by simpa using he
      rw [hd] at h
      exact (getLastSome_iff s.data c).mp h
  · rintro ⟨t, ht⟩
    rw [pyEndsWith1]
    rw [(getLastSome_iff s.data c).mpr ⟨t, ht⟩]
    simp

/-- Boolean membership agrees with list membership on characters. -/
theorem containsCharIff (l : List Char) (c : Char) :
    l.contains c = true ↔ c ∈ l := by
  induction l with
  | nil => simp
  | cons a t ih => simp [List.contains_cons, ih]

/-- The value already carries one of the magnitude suffixes M, B or K as its
last character, phrased by suffix decomposition. -/
def hasSuffixMBK (r : String) : Prop :=
  (∃ t, r.data = t ++ ['M']) ∨ (∃ t, r.data = t ++ ['B']) ∨ (∃ t, r.data = t ++ ['K'])

/-- The three endswith tests of the source jointly recognise exactly
hasSuffixMBK. -/
theorem hasSuffixMBK_iff (r : String) :
    (pyEndsWith1 r 'M' || pyEndsWith1 r 'B' || pyEndsWith1 r 'K') = true
      ↔ hasSuffixMBK r := by
  rw [hasSuffixMBK]
  simp [Bool.or_eq_true, pyEndsWith1_iff, or_assoc]

/-- No string equals itself with M appended. -/
theorem strNeAppendM (r : String) : r ≠ r ++ "M" := by
  intro h
  have h2 : r.data = r.data ++ ['M'] := by
    have h1 := congrArg String.data h
    rwa [strDataAppend] at h1
  have h3 := congrArg List.length h2
  rw [List.length_append] at h3
  simp at h3

/-- C1: the claim holds as stated for the DNB extractor, where a record is
kept exactly when its company name is at least 3 characters long, but the
universal extractor keeps an item exactly when its title was found and is
non-empty, with no 3-character threshold, so the amended statement is: the
DNB extractor keeps a record iff its name is at least 3 characters long; the
universal extractor keeps a record iff its title is present and non-empty. -/
theorem c1_primary_field_threshold :
    (∀ (outcome : Except Unit (List AnchorOutcome)) (r : CompanyRecord),
        r ∈ extract_company_data_enhanced outcome → 3 ≤ r.companyName.length)
    ∧ (∀ a : Anchor, 3 ≤ a.name.length →
        extractLoop [AnchorOutcome.ok a] = [companyDataOf a])
    ∧ (∀ a : Anchor, a.name.length < 3 →
        extractLoop [AnchorOutcome.ok a] = [])
    ∧ (∀ (outcome : Except Unit (List ContainerOutcome)) (pn : Nat) (it : Item),
        it ∈ extract_data_from_page outcome pn →
          ∃ t, it.title = some t ∧ t ≠ "") := by
  refine ⟨?_, ?_, ?_, ?_⟩
  · intro outcome r hr
    cases outcome with
    | error e => cases hr
    | ok links => exact extractLoop_name_len links r hr
  · intro a ha
    have hn : ¬ (a.name = "" ∨ a.name.length < 3) := by
      rintro (h | h)
      · rw [h] at ha
        exact absurd ha (by decide)
      · omega
    rw [extractLoop, if_neg hn]
    rfl
  · intro a ha
    rw [extractLoop, if_pos (Or.inr ha)]
    rfl
  · intro outcome pn it hit
    cases outcome with
    | error e => cases hit
    | ok cs => exact universalLoop_title cs pn 0 it hit

/-- C1 witness: a 4-character name is kept, a 2-character name is dropped by
the DNB extractor. -/
theorem c1_witness :
    extractLoop [AnchorOutcome.ok ⟨"Acme", ""⟩] = [companyDataOf ⟨"Acme", ""⟩]
    ∧ extractLoop [AnchorOutcome.ok ⟨"AB", ""⟩] = [] :=
  ⟨c1_primary_field_threshold.2.1 ⟨"Acme", ""⟩ (by decide),
   c1_primary_field_threshold.2.2.1 ⟨"AB", ""⟩ (by decide)⟩

/-- C1 counterexample: the universal extractor keeps a record whose primary
field has only 2 characters, contradicting the claimed 3-character
threshold. -/
theorem c1_counterexample :
    extract_data_from_page
        (Except.ok [ContainerOutcome.ok ⟨some "AB", none, none⟩]) 1
      = [⟨1, 1, some "AB", none, none⟩]
    ∧ ("AB" : String).length < 3 :=
  ⟨by decide, by decide⟩

/-- C2: extraction never propagates an exception, and for the DNB extractor
a per-anchor exception skips exactly that anchor while the remaining anchors
are still processed; but in the universal extractor an exception inside the
container loop stops processing of all remaining containers, returning the
items extracted before it; in both, an exception during container location
yields the empty list. -/
theorem c2_extraction_failure_semantics :
    (∀ (pre suf : List AnchorOutcome),
        extractLoop (pre ++ AnchorOutcome.raises :: suf)
          = extractLoop (pre ++ suf))
    ∧ extract_company_data_enhanced (Except.error ()) = []
    ∧ (∀ (cs : List ContainerOutcome) (pn : Nat),
        extract_data_from_page (Except.ok cs) pn
          = universalLoop (cs.takeWhile notRaises) pn 0)
    ∧ (∀ pn : Nat, extract_data_from_page (Except.error ()) pn = []) := by
  refine ⟨extractLoop_raises, rfl, ?_, fun pn => rfl⟩
  intro cs pn
  exact universalLoop_takeWhile cs pn 0

/-- C2 counterexample: in the universal extractor an exception at the second
container prevents the third container from producing its item, although
that container would have been kept, so remaining anchors are not still
processed. -/
theorem c2_counterexample :
    extract_data_from_page
        (Except.ok
          [ContainerOutcome.ok ⟨some "Alpha", none, none⟩,
           ContainerOutcome.raises,
           ContainerOutcome.ok ⟨some "Gamma", none, none⟩]) 1
      = [⟨1, 1, some "Alpha", none, none⟩]
    ∧ itemKeptTitle ⟨some "Gamma", none, none⟩ = true :=
  ⟨by decide, by decide⟩

/-- A concrete two-element proxy pool used in the rotation theorems. -/
def proxyA : Proxy := ⟨"10.0.0.1", "8080"⟩

/-- The second proxy of the concrete pool. -/
def proxyB : Proxy := ⟨"10.0.0.2", "8080"⟩

/-- A scraper state holding the two-proxy pool, currently on index 0. -/
def twoProxyState : ScraperState := ⟨some (some proxyA), [proxyA, proxyB], 0, 0⟩

/-- A scraper state with an empty pool and a live unproxied session. -/
def noProxyState : ScraperState := ⟨some none, [], 0, 7⟩

/-- C3 amended: rotation is a modulo round robin that never removes an
identity from the pool, so after pool-length many rotations the index
returns to its starting value and a previously discarded identity is
selected again. -/
theorem c3_round_robin :
    ∀ st : ScraperState, st.proxy_list ≠ [] →
      (rotate_proxy st).proxy_list = st.proxy_list
      ∧ (rotate_proxy st).current_proxy_index
          = (st.current_proxy_index + 1) % st.proxy_list.length
      ∧ (rotate_proxy st).session_count = 0
      ∧ (st.current_proxy_index < st.proxy_list.length →
          (rotateN st.proxy_list.length st).current_proxy_index
            = st.current_proxy_index) := by
  intro st h
  refine ⟨rotate_proxy_proxy_list st, rotate_proxy_index st h,
    rotate_proxy_session st h, ?_⟩
  intro hlt
  obtain ⟨hp, hi⟩ := rotateN_index st.proxy_list.length st h hlt
  rw [hi, Nat.add_mod_right]
  exact Nat.mod_eq_of_lt hlt

/-- C3 counterexample: with a pool of two identities, the first rotation
moves away from index 0 and the second rotation selects index 0 again,
rebuilding the session on the discarded identity proxyA. -/
theorem c3_counterexample :
    (rotate_proxy twoProxyState).current_proxy_index = 1
    ∧ (rotate_proxy (rotate_proxy twoProxyState)).current_proxy_index = 0
    ∧ (rotate_proxy (rotate_proxy twoProxyState)).driver = some (some proxyA) :=
  ⟨by decide, by decide, by decide⟩

/-- C3 witness: the amended theorem applied to the concrete two-proxy
state. -/
theorem c3_witness :
    (rotate_proxy twoProxyState).proxy_list = twoProxyState.proxy_list
    ∧ (rotateN (List.length [proxyA, proxyB]) twoProxyState).current_proxy_index = 0 := by
  have h := c3_round_robin twoProxyState (by decide)
  exact ⟨h.1, h.2.2.2 (by decide)⟩

/-- C10: calling rotate_proxy on an empty pool returns immediately and
changes nothing: driver, index, session counter and pool are all left
exactly as they were. -/
theorem c10_rotate_empty_noop :
    ∀ st : ScraperState, st.proxy_list = [] → rotate_proxy st = st := by
  intro st h
  have hi : st.proxy_list.isEmpty = true := by rw [h]; rfl
  rw [rotate_proxy, if_pos hi]

/-- C10 witness: the no-op on a concrete empty-pool state with a live
session and a non-zero session counter. -/
theorem c10_witness : rotate_proxy noProxyState = noProxyState :=
  c10_rotate_empty_noop noProxyState rfl

/-- C4: the claim holds for the DNB scraper: after a prefix of pages that
extract records and offer a next page, a cleanly fetched page with zero
records stops the loop with exactly the prefix records, having fetched
exactly prefix-length plus one pages, so the empty page's successor is never
fetched.  The universal run loop instead continues to the next page after an
empty extraction, so the amended statement restricts the immediate
termination to the DNB scraper and records that the universal loop skips the
empty page and proceeds. -/
theorem c4_empty_page_termination :
    (∀ (pre : List SelSoup) (s : SelSoup) (rest : List (Option SelSoup)),
        (∀ q ∈ pre, extract_company_data_enhanced q.anchors ≠ []
            ∧ q.hasNext = true) →
        extract_company_data_enhanced s.anchors = [] →
        scrape_all_pages (pre.map some ++ some s :: rest)
          = ⟨(pre.map (fun q => extract_company_data_enhanced q.anchors)).flatten,
             pre.length + 1⟩)
    ∧ (∀ (soup : Except Unit (List ContainerOutcome)) (evs : List RunEvent)
          (pn : Nat) (acc : List Item) (n : Nat),
        extract_data_from_page soup pn = [] →
        runEvents (RunEvent.page (some soup) :: evs) pn acc n
          = runEvents evs (pn + 1) acc (n + 1)) := by
  refine ⟨scrapeStopsAtEmpty, ?_⟩
  intro soup evs pn acc n h
  show (if (extract_data_from_page soup pn).isEmpty
          then runEvents evs (pn + 1) acc (n + 1)
          else runEvents evs (pn + 1) (acc ++ extract_data_from_page soup pn) (n + 1))
      = runEvents evs (pn + 1) acc (n + 1)
  rw [h]
  rfl

/-- A page whose extraction yields one record and which offers a next
page. -/
def soupOne : SelSoup := ⟨Except.ok [AnchorOutcome.ok ⟨"Acme Pty", ""⟩], true⟩

/-- A cleanly loading page whose extraction yields nothing. -/
def soupEmpty : SelSoup := ⟨Except.ok [], false⟩

/-- C4 witness: one productive page followed by an empty page gives exactly
the first page's record and two fetches. -/
theorem c4_witness :
    scrape_all_pages ([soupOne].map some ++ some soupEmpty :: [])
      = ⟨([soupOne].map (fun q => extract_company_data_enhanced q.anchors)).flatten,
         [soupOne].length + 1⟩ :=
  c4_empty_page_termination.1 [soupOne] soupEmpty [] (by decide) (by decide)

/-- C4 counterexample: in the universal run loop, a page with zero records
between two productive pages does not stop the run; the third page is
fetched and its record appears in the result, against the claim that the
controller terminates after the empty page with only the earlier records. -/
theorem c4_counterexample :
    runEvents
        [RunEvent.page (some (Except.ok [ContainerOutcome.ok ⟨some "Alpha", none, none⟩])),
         RunEvent.page (some (Except.ok [])),
         RunEvent.page (some (Except.ok [ContainerOutcome.ok ⟨some "Gamma", none, none⟩]))]
        1 [] 0
      = ⟨[⟨1, 1, some "Alpha", none, none⟩, ⟨3, 1, some "Gamma", none, none⟩], 3,
         [[⟨1, 1, some "Alpha", none, none⟩, ⟨3, 1, some "Gamma", none, none⟩]]⟩ := by
  decide

/-- C5: with a non-empty proxy pool and persistent failures, get_page_content
performs exactly 3 retries after the initial attempt, 4 attempts in all, and
returns no content, after which the run loop preserves the accumulated set;
but with an empty pool the code never takes the retry branch at all: the
first failure ends the call after a single attempt, so the amended statement
replaces the claimed backoff retry without a pool by immediate surrender. -/
theorem c5_failure_budget :
    (∀ (st : ScraperState) (outs : List FetchOutcome),
        st.proxy_list ≠ [] → allFailedB outs = true → 4 ≤ outs.length →
        (get_page_content st outs 0).soup = none
        ∧ (get_page_content st outs 0).attempts = 4)
    ∧ (∀ (st : ScraperState) (o : FetchOutcome) (rest : List FetchOutcome) (rc : Nat),
        st.proxy_list = [] → allFailedB (o :: rest) = true →
        (get_page_content st (o :: rest) rc).soup = none
        ∧ (get_page_content st (o :: rest) rc).attempts = 1)
    ∧ (∀ (evs : List RunEvent) (pn : Nat) (acc : List Item) (n : Nat),
        (runEvents (RunEvent.page none :: evs) pn acc n).scraped = acc) := by
  refine ⟨?_, ?_, ?_⟩
  · intro st outs hpool hall hlen
    have h := gpc_all_failed outs st 0 hpool hall (by omega) (by omega)
    exact ⟨h.1, h.2⟩
  · intro st o rest rc hpool hall
    rw [allFailedB, List.all_cons, Bool.and_eq_true] at hall
    obtain ⟨ho, _⟩ := hall
    cases o with
    | success s => cases ho
    | blocked => cases ho
    | failed =>
      have hcond : ¬ (rc < 3 ∧ ¬ st.proxy_list.isEmpty = true) := by
        rintro ⟨_, hne⟩
        exact hne (by rw [hpool]; rfl)
      rw [get_page_content, if_neg hcond]
      exact ⟨rfl, rfl⟩
  · intro evs pn acc n
    rfl

/-- A scraper state holding a single-proxy pool. -/
def oneProxyState : ScraperState := ⟨some (some proxyA), [proxyA], 0, 0⟩

/-- C5 witness: four consecutive failures against a one-proxy pool consume
exactly 4 attempts, the initial one plus 3 retries, and yield no content. -/
theorem c5_witness :
    (get_page_content oneProxyState
        [FetchOutcome.failed, FetchOutcome.failed, FetchOutcome.failed,
         FetchOutcome.failed] 0).soup = none
    ∧ (get_page_content oneProxyState
        [FetchOutcome.failed, FetchOutcome.failed, FetchOutcome.failed,
         FetchOutcome.failed] 0).attempts = 4 :=
  c5_failure_budget.1 oneProxyState
    [FetchOutcome.failed, FetchOutcome.failed, FetchOutcome.failed,
     FetchOutcome.failed]
    (by decide) (by decide) (by decide)

/-- C5 counterexample: with an empty pool the same persistent failures end
after a single attempt, zero retries rather than the claimed 3 backoff
retries. -/
theorem c5_counterexample :
    (get_page_content noProxyState
        [FetchOutcome.failed, FetchOutcome.failed, FetchOutcome.failed,
         FetchOutcome.failed] 0).attempts = 1
    ∧ (get_page_content noProxyState
        [FetchOutcome.failed, FetchOutcome.failed, FetchOutcome.failed,
         FetchOutcome.failed] 0).soup.isNone = true :=
  ⟨rfl, rfl⟩

/-- C6: rules are applied in declared order; for the revenue field the first
matching pattern wins unconditionally and the remaining patterns are never
consulted; for the location field the winner is the first pattern whose
stripped capture passes the cleanup filter, that is, contains no Country:
and is longer than 2 characters.  A location pattern that matches with a
capture failing the filter does not set the field and the later patterns are
still tried, so the amended statement adds the filter condition to the
claimed first-match-wins rule. -/
theorem c6_rule_order :
    (∀ (ps1 : List Pat) (p : Pat) (ps2 : List Pat) (text v : String),
        locationPatterns = ps1 ++ p :: ps2 →
        (∀ q ∈ ps1, ∀ w, reSearch q text = some w →
            locAcceptB (pyStrip w) = false) →
        reSearch p text = some v → locAcceptB (pyStrip v) = true →
        extractLocation text = pyStrip v)
    ∧ (∀ (ps1 : List Pat) (p : Pat) (ps2 : List Pat) (text v : String),
        revenuePatterns = ps1 ++ p :: ps2 →
        (∀ q ∈ ps1, reSearch q text = none) →
        reSearch p text = some v →
        extractRevenue text = normalizeRevenue v) := by
  constructor
  · intro ps1 p ps2 text v hdecomp hrej hsearch haccept
    rw [extractLocation, hdecomp]
    exact locLoop_first ps1 p ps2 text v hrej hsearch haccept
  · intro ps1 p ps2 text v hdecomp hnone hsearch
    rw [extractRevenue, hdecomp]
    exact revLoop_first ps1 p ps2 text v hnone hsearch

/-- C6 counterexample: the first declared location pattern matches this text
with a non-empty capture, yet the field does not take that capture: the
capture contains Country:, the cleanup filter rejects it, the loop falls
through to the later patterns and the field stays empty. -/
theorem c6_counterexample :
    List.head? locationPatterns = some locPat1
    ∧ reSearch locPat1 "Country: Country: X, New South Wales"
        = some "Country: X, New South Wales"
    ∧ pyStrip "Country: X, New South Wales" ≠ ""
    ∧ extractLocation "Country: Country: X, New South Wales" = "" :=
  ⟨rfl, by decide, by decide, by decide⟩

/-- C6 witness: the spec scenario with the first pattern matching nothing
and the second pattern matching Sydney, New South Wales gives the field that
capture. -/
theorem c6_witness :
    extractLocation "Location: Sydney, New South Wales"
      = pyStrip "Sydney, New South Wales" :=
  c6_rule_order.1 [locPat1] locPat2 [locPat3, locPat4, locPat5, locPat6]
    "Location: Sydney, New South Wales" "Sydney, New South Wales" rfl
    (by
      intro q hq w hw
      rw [List.mem_singleton.mp hq] at hw
      rw [show reSearch locPat1 "Location: Sydney, New South Wales" = none from
        by decide] at hw
      exact Option.noConfusion hw)
    (by decide) (by decide)

/-- C7: confirmed: normalization first strips every comma and, on the
stripped value, appends M exactly when the value does not already end in M,
B or K and it contains a decimal point or is longer than 3 characters; a
value already carrying one of those suffixes is returned unchanged apart
from the comma stripping. -/
theorem c7_revenue_normalization :
    ∀ v : String,
      (normalizeRevenue v = removeCommas v ++ "M"
        ↔ (¬ hasSuffixMBK (removeCommas v)
            ∧ ('.' ∈ (removeCommas v).data ∨ 3 < (removeCommas v).length)))
      ∧ (hasSuffixMBK (removeCommas v) → normalizeRevenue v = removeCommas v) := by
  intro v
  have hnorm : normalizeRevenue v
      = if !(pyEndsWith1 (removeCommas v) 'M') && !(pyEndsWith1 (removeCommas v) 'B')
            && !(pyEndsWith1 (removeCommas v) 'K') then
          (if (removeCommas v).data.contains '.'
              || decide (3 < (removeCommas v).length)
            then removeCommas v ++ "M" else removeCommas v)
        else removeCommas v := rfl
  by_cases hs : hasSuffixMBK (removeCommas v)
  · have hb : (pyEndsWith1 (removeCommas v) 'M' || pyEndsWith1 (removeCommas v) 'B'
        || pyEndsWith1 (removeCommas v) 'K') = true := (hasSuffixMBK_iff _).mpr hs
    have hcond : (!(pyEndsWith1 (removeCommas v) 'M')
        && !(pyEndsWith1 (removeCommas v) 'B')
        && !(pyEndsWith1 (removeCommas v) 'K')) = false := by
      revert hb
      cases pyEndsWith1 (removeCommas v) 'M' <;>
        cases pyEndsWith1 (removeCommas v) 'B' <;>
        cases pyEndsWith1 (removeCommas v) 'K' <;> simp
    have hv : normalizeRevenue v = removeCommas v := by
      rw [hnorm, hcond]
      rfl
    refine ⟨⟨?_, ?_⟩, fun _ => hv⟩
    · intro h
      rw [hv] at h
      exact absurd h (strNeAppendM _)
    · rintro ⟨hns, _⟩
      exact absurd hs hns
  · have hb : (pyEndsWith1 (removeCommas v) 'M' || pyEndsWith1 (removeCommas v) 'B'
        || pyEndsWith1 (removeCommas v) 'K') = false := by
      rw [Bool.eq_false_iff]
      intro h
      exact hs ((hasSuffixMBK_iff _).mp h)
    have hcond : (!(pyEndsWith1 (removeCommas v) 'M')
        && !(pyEndsWith1 (removeCommas v) 'B')
        && !(pyEndsWith1 (removeCommas v) 'K')) = true := by
      revert hb
      cases pyEndsWith1 (removeCommas v) 'M' <;>
        cases pyEndsWith1 (removeCommas v) 'B' <;>
        cases pyEndsWith1 (removeCommas v) 'K' <;> simp
    by_cases hd : ((removeCommas v).data.contains '.'
        || decide (3 < (removeCommas v).length)) = true
    · have hv : normalizeRevenue v = removeCommas v ++ "M" := by
        rw [hnorm, hcond, if_pos rfl, if_pos hd]
      refine ⟨⟨fun _ => ⟨hs, ?_⟩, fun _ => hv⟩, fun hsuf => absurd hsuf hs⟩
      have hd2 := hd
      rw [Bool.or_eq_true] at hd2
      rcases hd2 with h1 | h2
      · exact Or.inl ((containsCharIff _ _).mp h1)
      · exact Or.inr (of_decide_eq_true h2)
    · have hv : normalizeRevenue v = removeCommas v := by
        rw [hnorm, hcond, if_pos rfl, if_neg hd]
      refine ⟨⟨?_, ?_⟩, fun hsuf => absurd hsuf hs⟩
      · intro h
        rw [hv] at h
        exact absurd h (strNeAppendM _)
      · rintro ⟨_, hcl⟩
        exfalso
        apply hd
        rw [Bool.or_eq_true]
        rcases hcl with h1 | h2
        · exact Or.inl ((containsCharIff _ _).mpr h1)
        · exact Or.inr (decide_eq_true h2)

/-- C7 witness: a bare comma-separated number gains the M suffix, a value
already ending in M is unchanged. -/
theorem c7_witness :
    normalizeRevenue "1,234" = "1234M" ∧ normalizeRevenue "5.2M" = "5.2M" := by
  constructor
  · have hns : ¬ hasSuffixMBK (removeCommas "1,234") := by
      intro hsuf
      have hb := (hasSuffixMBK_iff (removeCommas "1,234")).mpr hsuf
      rw [show (pyEndsWith1 (removeCommas "1,234") 'M'
          || pyEndsWith1 (removeCommas "1,234") 'B'
          || pyEndsWith1 (removeCommas "1,234") 'K') = false from by decide] at hb
      cases hb
    have h := (c7_revenue_normalization "1,234").1.mpr ⟨hns, Or.inr (by decide)⟩
    rw [h]
    decide
  · have hsuf : hasSuffixMBK (removeCommas "5.2M") :=
      Or.inl ⟨['5', '.', '2'], by decide⟩
    have h := (c7_revenue_normalization "5.2M").2 hsuf
    rw [h]
    decide

/-- C8: amended: on every termination path of the run loop, ceiling
exhaustion, failed page load, interrupt or unexpected exception, the
accumulated records are written exactly once whenever at least one record
was accumulated, and never discarded; a run that accumulated nothing
performs no write at all, where the claim as stated asks for one write on
every path. -/
theorem c8_results_persistence :
    ∀ (evs : List RunEvent) (pn : Nat) (acc : List Item) (n : Nat),
      (runEvents evs pn acc n).writes
        = if (runEvents evs pn acc n).scraped.isEmpty then []
          else [(runEvents evs pn acc n).scraped] :=
  runEvents_writes

/-- C8 counterexample: a run whose first page fails to load terminates with
an empty accumulation and performs zero writes, not exactly one. -/
theorem c8_counterexample :
    (runEvents [RunEvent.page none] 1 [] 0).writes = []
    ∧ (runEvents [RunEvent.page none] 1 [] 0).scraped = [] :=
  ⟨rfl, rfl⟩

/-- C9: every record produced by the DNB extractor carries all four fields
by construction of the record type; its industry field is the constant
Wholesale Trade regardless of page content; its location and revenue fields
are exactly the outputs of the two pattern loops over the combined text, and
those loops return the empty string when no pattern matches acceptably, so
unmatched fields hold the empty string rather than being absent. -/
theorem c9_record_shape :
    (∀ (outcome : Except Unit (List AnchorOutcome)) (r : CompanyRecord),
        r ∈ extract_company_data_enhanced outcome →
          r.industry = "Wholesale Trade")
    ∧ (∀ a : Anchor,
        (companyDataOf a).location = extractLocation a.combinedText
        ∧ (companyDataOf a).salesRevenueM = extractRevenue a.combinedText)
    ∧ (∀ text : String,
        (∀ q ∈ locationPatterns, ∀ w, reSearch q text = some w →
            locAcceptB (pyStrip w) = false) →
        extractLocation text = "")
    ∧ (∀ text : String,
        (∀ q ∈ revenuePatterns, reSearch q text = none) →
        extractRevenue text = "") := by
  refine ⟨?_, fun a => ⟨rfl, rfl⟩, ?_, ?_⟩
  · intro outcome r hr
    cases outcome with
    | error e => cases hr
    | ok links => exact extractLoop_industry links r hr
  · intro text h
    exact locLoop_none locationPatterns text h
  · intro text h
    exact revLoop_none revenuePatterns text h

/-- C9 witness: a concrete record has the constant industry, and on an empty
combined text both field loops return the empty string. -/
theorem c9_witness :
    (companyDataOf ⟨"Acme", ""⟩).industry = "Wholesale Trade"
    ∧ extractLocation "" = ""
    ∧ extractRevenue "" = "" := by
  refine ⟨?_, ?_, ?_⟩
  · exact c9_record_shape.1 (Except.ok [AnchorOutcome.ok ⟨"Acme", ""⟩])
      (companyDataOf ⟨"Acme", ""⟩) (by decide)
  · apply c9_record_shape.2.2.1 ""
    intro q hq w hw
    have hall : ∀ q ∈ locationPatterns, reSearch q "" = none := by decide
    rw [hall q hq] at hw
    exact Option.noConfusion hw
  · exact c9_record_shape.2.2.2 "" (by decide)
